import Mathlib

/-!
Verification of the lead-to-document generator (ai-proposal).

The client logic of `src/App.tsx` is shallowly embedded here:
strings are `List Char`, the heading regex
`/^##\s*\d+\.\s*([^\n]+)\s*$/gm` is modelled by an explicit
backtracking-faithful matcher, and the stateful `handleGenerate`
handler is modelled as a pure transition on an `AppState` record,
parameterised by the fetch outcome and the generated id/timestamp.
-/

/-! ## JavaScript character classes and string primitives -/

/-- JS `\s` (also the set removed by `String.prototype.trim`):
space, tab, LF, VT, FF, CR and the Unicode space characters. -/
def jsIsSpace (c : Char) : Bool :=
  c == ' ' || c == '\t' || c == '\n' || c == '\x0b' || c == '\x0c' || c == '\r' ||
  c == '\xa0' || c == ' ' ||
  decide (0x2000 ≤ c.toNat ∧ c.toNat ≤ 0x200a) ||
  c == ' ' || c == ' ' || c == ' ' || c == ' ' ||
  c == '　' || c == '﻿'

/-- JS LineTerminator set, recognised by multiline `^` and `$`. -/
def jsLineTerm (c : Char) : Bool :=
  c == '\n' || c == '\r' || c == ' ' || c == ' '

/-- JS `String.prototype.toLowerCase`, modelled on the Basic Latin range
(the only range the program's needles use). -/
def jsToLower (c : Char) : Char :=
  if 'A' ≤ c ∧ c ≤ 'Z' then Char.ofNat (c.toNat + 32) else c

/-- Length of the maximal leading run satisfying `p`. -/
def runCount (p : Char → Bool) : List Char → Nat
  | [] => 0
  | c :: rest => if p c then runCount p rest + 1 else 0

/-- JS `s.slice(a, b)` for `0 ≤ a ≤ b`. -/
def jsSlice (l : List Char) (a b : Nat) : List Char :=
  (l.take b).drop a

/-- Index of the last element of the list satisfying `p`, if any. -/
def lastIndexWhere (p : Char → Bool) : List Char → Option Nat
  | [] => none
  | c :: rest =>
    match lastIndexWhere p rest with
    | some t => some (t + 1)
    | none => if p c then some 0 else none

/-- JS `String.prototype.trim`. -/
def trim (l : List Char) : List Char :=
  ((l.dropWhile jsIsSpace).reverse.dropWhile jsIsSpace).reverse

/-- JS `String.prototype.includes`: is `needle` a contiguous substring of
`hay`? -/
def jsIncludes (hay needle : List Char) : Bool :=
  match hay with
  | [] => needle.isPrefixOf ([] : List Char)
  | c :: t => needle.isPrefixOf (c :: t) || jsIncludes t needle

/-! ## The heading regex `/^##\s*\d+\.\s*([^\n]+)\s*$/gm` -/

/-- One regex match: start offset, captured group 1 (the title, as
matched, before lowercasing), and the end offset of the whole match
(the `lastIndex` the scan resumes from). -/
structure HeadMatch where
  index : Nat
  title : List Char
  stop : Nat
deriving DecidableEq

/-- Match the tail `\s*([^\n]+)\s*$` of the heading regex at offset `q0`
(just after the literal dot), with JS backtracking semantics:
the leading `\s*` is greedy but yields characters back to `[^\n]+`
when needed, `[^\n]+` greedily captures to the end of the line, and the
trailing `\s*$` accepts at the last line terminator inside the following
whitespace run (or at end of input). Returns the capture and the match
end. -/
def tailMatch (s : List Char) (q0 : Nat) : Option (List Char × Nat) :=
  let K := runCount jsIsSpace (s.drop q0)
  let qOpt : Option Nat :=
    if q0 + K < s.length then some (q0 + K)
    else
      match lastIndexWhere (fun c => c ≠ '\n') (jsSlice s q0 (q0 + K)) with
      | some k => some (q0 + k)
      | none => none
  match qOpt with
  | none => none
  | some q =>
    let n := runCount (fun c => c ≠ '\n') (s.drop q)
    let L := q + n
    let title := jsSlice s q L
    let M := runCount jsIsSpace (s.drop L)
    let stop :=
      if L + M = s.length then L + M
      else
        match lastIndexWhere jsLineTerm (jsSlice s L (L + M)) with
        | some t => L + t
        | none => L + M
    some (title, stop)

/-- Attempt the full heading regex at offset `j` (the `^` anchor is
checked by the caller): literal `##`, greedy `\s*`, `\d+`, literal `.`,
then the captured title tail. -/
def matchAt (s : List Char) (j : Nat) : Option (List Char × Nat) :=
  match s.drop j with
  | '#' :: '#' :: rest2 =>
    let k := runCount jsIsSpace rest2
    let restK := rest2.drop k
    let d := runCount Char.isDigit restK
    if d = 0 then none
    else
      match restK.drop d with
      | '.' :: _ => tailMatch s (j + 2 + k + d + 1)
      | _ => none
  | _ => none

/-- Multiline `^`: offset 0 or just after a line terminator. -/
def lineStartAt (s : List Char) (j : Nat) : Bool :=
  j == 0 ||
    (match s[j - 1]? with
     | some c => jsLineTerm c
     | none => false)

/-- One `matchAll` scan step: try successive offsets from `j`; on a
match, record it and resume from the match end. `fuel` bounds the
recursion; every step advances the offset, so `s.length + 2` fuel is
enough. -/
def scanAux (s : List Char) : Nat → Nat → List HeadMatch
  | 0, _ => []
  | fuel + 1, j =>
    if j > s.length then []
    else if lineStartAt s j then
      match matchAt s j with
      | some (title, stop) => ⟨j, title, stop⟩ :: scanAux s fuel stop
      | none => scanAux s fuel (j + 1)
    else scanAux s fuel (j + 1)

/-- The array `[...markdown.matchAll(regex)]` for the heading regex. -/
def matchesOf (s : List Char) : List HeadMatch :=
  scanAux s (s.length + 2) 0

/-! ## `splitSections` -/

/-- The record returned by `splitSections`. -/
structure Sections where
  all : List Char
  overview : List Char
  brief : List Char
  proposal : List Char
  miniSpec : List Char
deriving DecidableEq

/-- One element of the `parts` array: lowercased title plus the span
`[start, stop)`. -/
structure SpanPart where
  title : List Char
  start : Nat
  stop : Nat
deriving DecidableEq

/-- The `parts` array built in `splitSections`: each match yields the
lowercased capture, its own start offset, and the next match's start
offset (or the document length for the last match). -/
def partsFrom (md : List Char) : List HeadMatch → List SpanPart
  | [] => []
  | [m] => [⟨m.title.map jsToLower, m.index, md.length⟩]
  | m :: m2 :: rest => ⟨m.title.map jsToLower, m.index, m2.index⟩ :: partsFrom md (m2 :: rest)

/-- The parts array the segmenter iterates over for a given document. -/
def partsOf (md : List Char) : List SpanPart :=
  partsFrom md (matchesOf md)

/-- The trimmed span `markdown.slice(p.start, p.end).trim()`. -/
def bodyOf (md : List Char) (p : SpanPart) : List Char :=
  trim (jsSlice md p.start p.stop)

def overviewNeedle : List Char := "project overview".toList
def briefNeedle : List Char := "final project brief".toList
def proposalNeedle : List Char := "proposal".toList
def miniSpecNeedle1 : List Char := "mini-spec".toList
def miniSpecNeedle2 : List Char := "mini spec".toList

/-- The body of the `parts.forEach` loop: assign the trimmed span to the
bucket selected by the `includes` chain; later iterations overwrite. -/
def applyPart (md : List Char) (acc : Sections) (p : SpanPart) : Sections :=
  let body := bodyOf md p
  if jsIncludes p.title overviewNeedle then { acc with overview := body }
  else if jsIncludes p.title briefNeedle then { acc with brief := body }
  else if jsIncludes p.title proposalNeedle then { acc with proposal := body }
  else if jsIncludes p.title miniSpecNeedle1 || jsIncludes p.title miniSpecNeedle2 then
    { acc with miniSpec := body }
  else acc

/-- Function `splitSections` from `src/App.tsx`. -/
def splitSections (markdown : List Char) : Sections :=
  if markdown = [] then ⟨markdown, [], [], [], []⟩
  else if matchesOf markdown = [] then ⟨markdown, [], [], [], []⟩
  else
    (partsFrom markdown (matchesOf markdown)).foldl (applyPart markdown)
      ⟨markdown, [], [], [], []⟩

/-! ## `deriveTitle` -/

/-- JS `lead.split("\n")`. -/
def splitLines (lead : List Char) : List (List Char) :=
  lead.splitOn '\n'

/-- The line list `lead.split("\n").map(trim).filter(Boolean)`. -/
def linesOf (lead : List Char) : List (List Char) :=
  ((splitLines lead).map trim).filter (fun l => l ≠ [])

def leadNameNeedle : List Char := "lead name:".toList

/-- The test `l.toLowerCase().startsWith("lead name:")`. -/
def isLeadNameLine (l : List Char) : Bool :=
  leadNameNeedle.isPrefixOf (l.map jsToLower)

/-- JS `nameLine.replace(/^[Ll]ead [Nn]ame:\s*/, "")`: only the first
letters of "lead" and "name" are case-insensitive here; if the anchored
pattern does not match, the line is returned unchanged. -/
def stripLeadName (l : List Char) : List Char :=
  match l with
  | c1 :: 'e' :: 'a' :: 'd' :: ' ' :: c2 :: 'a' :: 'm' :: 'e' :: ':' :: rest =>
    if (c1 = 'L' ∨ c1 = 'l') ∧ (c2 = 'N' ∨ c2 = 'n') then rest.dropWhile jsIsSpace
    else l
  | _ => l

def untitledMsg : List Char := "Untitled lead".toList

/-- Function `deriveTitle` from `src/App.tsx`. -/
def deriveTitle (lead : List Char) : List Char :=
  match (linesOf lead).find? isLeadNameLine with
  | some nameLine =>
    if trim (stripLeadName nameLine) = [] then untitledMsg
    else trim (stripLeadName nameLine)
  | none =>
    match linesOf lead with
    | [] => untitledMsg
    | l :: _ => l

/-! ## History store and the generation pipeline -/

/-- The persisted record of one successful generation. -/
structure HistoryItem where
  id : List Char
  createdAt : List Char
  title : List Char
  leadText : List Char
  outputText : List Char
  model : List Char
  tone : List Char
deriving DecidableEq

/-- The update `setHistory((prev) => [item, ...prev].slice(0, 15))`. -/
def record (item : HistoryItem) (prev : List HistoryItem) : List HistoryItem :=
  (item :: prev).take 15

/-- Successive `record` calls, oldest first. -/
def recordAll (items : List HistoryItem) (h0 : List HistoryItem) : List HistoryItem :=
  items.foldl (fun h it => record it h) h0

/-- The `SectionKey` union type. -/
inductive SectionKey where
  | all
  | overview
  | brief
  | proposal
  | miniSpec
deriving DecidableEq

/-- The component state touched by `handleGenerate`. -/
structure AppState where
  leadText : List Char
  outputText : List Char
  errorText : List Char
  copyMessage : List Char
  activeTab : SectionKey
  model : List Char
  tone : List Char
  history : List HistoryItem
  activeHistoryId : Option (List Char)
  isLoading : Bool
deriving DecidableEq

/-- The observable outcome of the `fetch` call:
a 2xx response with a decoded `projectFolder` field (`none` when the
field is absent or falsy-empty), a non-2xx response with a decoded
`error` field (`none` when the body is absent or malformed), or a thrown
exception (`some msg` for an `Error` with that message, `none` for a
non-`Error` value). -/
inductive FetchOutcome where
  | success (projectFolder : Option (List Char))
  | httpError (errorField : Option (List Char))
  | thrown (errorMessage : Option (List Char))
deriving DecidableEq

/-- JS `x || d` on an optional string field: the fallback is used when
the field is absent or the empty string. -/
def jsOr (o : Option (List Char)) (d : List Char) : List Char :=
  match o with
  | some s => if s = [] then d else s
  | none => d

def validationMsg : List Char := "Paste a lead on the left, then click Generate.".toList
def generatingMsg : List Char := "Generating project folder from backend…".toList
def noFolderMsg : List Char := "No project folder returned.".toList
def failedMsg : List Char := "Failed to generate project folder.".toList
def genericMsg : List Char := "Something went wrong while contacting the backend.".toList

/-- Function `handleGenerate` from `src/App.tsx`, as the net state transition of
one invocation: validation guard, the pre-request resets, then the
branch selected by the fetch outcome (`newId` and `now` stand for
`makeId()` and `new Date().toISOString()`; `isLoading` is `false` again
after the `finally`). -/
def handleGenerate (st : AppState) (outcome : FetchOutcome)
    (newId now : List Char) : AppState :=
  if trim st.leadText = [] then
    { st with outputText := [], errorText := validationMsg }
  else
    let st1 : AppState :=
      { st with isLoading := false, errorText := [], copyMessage := [],
                activeTab := SectionKey.all, outputText := generatingMsg,
                activeHistoryId := none }
    match outcome with
    | FetchOutcome.success pf =>
      let folder := jsOr pf noFolderMsg
      let item : HistoryItem :=
        ⟨newId, now, deriveTitle st.leadText, st.leadText, folder, st.model, st.tone⟩
      { st1 with outputText := folder, history := record item st1.history,
                 activeHistoryId := some newId }
    | FetchOutcome.httpError ef =>
      { st1 with errorText := jsOr ef failedMsg, outputText := [] }
    | FetchOutcome.thrown em =>
      { st1 with errorText := em.getD genericMsg, outputText := [] }

/-! ## Helper lemmas about `dropWhile` and `trim` -/

theorem dropWhile_idem (p : Char → Bool) (l : List Char) :
    (l.dropWhile p).dropWhile p = l.dropWhile p := by
  induction l with
  | nil => rfl
  | cons c t ih =>
    by_cases h : p c
    · simp [List.dropWhile_cons, h, ih]
    · simp [List.dropWhile_cons, h]

theorem head?_dropWhile_not (p : Char → Bool) (l : List Char) {c : Char}
    (h : (l.dropWhile p).head? = some c) : p c = false := by
  induction l with
  | nil => simp at h
  | cons a t ih =>
    by_cases ha : p a
    · rw [List.dropWhile_cons_of_pos ha] at h; exact ih h
    · rw [List.dropWhile_cons_of_neg ha] at h
      simp at h
      subst h
      simp at ha
      exact ha

theorem dropWhile_eq_self_of_head (p : Char → Bool) (l : List Char)
    (h : ∀ c, l.head? = some c → p c = false) : l.dropWhile p = l := by
  cases l with
  | nil => rfl
  | cons a t =>
    have := h a rfl
    rw [List.dropWhile_cons_of_neg (by simp [this])]

theorem getLast?_cons_of_ne_nil (c : Char) (l : List Char) (h : l ≠ []) :
    (c :: l).getLast? = l.getLast? := by
  cases l with
  | nil => exact absurd rfl h
  | cons a t => exact List.getLast?_cons_cons

theorem dropWhile_getLast? (p : Char → Bool) (l : List Char)
    (h : l.dropWhile p ≠ []) : (l.dropWhile p).getLast? = l.getLast? := by
  induction l with
  | nil => exact absurd rfl h
  | cons c t ih =>
    by_cases hc : p c
    · rw [List.dropWhile_cons_of_pos hc] at h ⊢
      have ht : t ≠ [] := by
        intro he; rw [he] at h; exact h rfl
      rw [ih h, getLast?_cons_of_ne_nil c t ht]
    · rw [List.dropWhile_cons_of_neg hc]

theorem trim_idem (l : List Char) : trim (trim l) = trim l := by
  unfold trim
  by_cases hb : (l.dropWhile jsIsSpace).reverse.dropWhile jsIsSpace = []
  · rw [hb]; rfl
  · have h1 : ((l.dropWhile jsIsSpace).reverse.dropWhile jsIsSpace).reverse.dropWhile jsIsSpace
        = ((l.dropWhile jsIsSpace).reverse.dropWhile jsIsSpace).reverse := by
      apply dropWhile_eq_self_of_head
      intro c hc
      rw [List.head?_reverse] at hc
      rw [dropWhile_getLast? _ _ hb, List.getLast?_reverse] at hc
      exact head?_dropWhile_not _ _ hc
    rw [h1, List.reverse_reverse, dropWhile_idem]

theorem trim_dropWhile (l : List Char) :
    trim (l.dropWhile jsIsSpace) = trim l := by
  unfold trim
  rw [dropWhile_idem]

theorem mem_linesOf_trimmed {lead x : List Char} (h : x ∈ linesOf lead) :
    trim x = x ∧ x ≠ [] := by
  unfold linesOf at h
  rw [List.mem_filter] at h
  obtain ⟨hm, hne⟩ := h
  rw [List.mem_map] at hm
  obtain ⟨raw, _, hraw⟩ := hm
  constructor
  · rw [← hraw, trim_idem]
  · simpa using hne

/-! ## Unfolding equations for `deriveTitle` -/

theorem deriveTitle_eq_found {lead nameLine : List Char}
    (hf : (linesOf lead).find? isLeadNameLine = some nameLine) :
    deriveTitle lead =
      (if trim (stripLeadName nameLine) = [] then untitledMsg
       else trim (stripLeadName nameLine)) := by
  unfold deriveTitle
  rw [hf]

theorem deriveTitle_eq_no_lines {lead : List Char}
    (hf : (linesOf lead).find? isLeadNameLine = none)
    (hl : linesOf lead = []) : deriveTitle lead = untitledMsg := by
  unfold deriveTitle
  rw [hf, hl]

theorem deriveTitle_eq_first_line {lead l : List Char} {t : List (List Char)}
    (hf : (linesOf lead).find? isLeadNameLine = none)
    (hl : linesOf lead = l :: t) : deriveTitle lead = l := by
  unfold deriveTitle
  rw [hf, hl]

/-! ## Claims about `deriveTitle` -/

/-- The four anchored prefixes actually stripped by
`/^[Ll]ead [Nn]ame:\s*/`: when one is present, the rest of the line
after the prefix and its following whitespace run. Formalises the
amended reading of the strip step. -/
def leadNameVariantRest (l : List Char) : Option (List Char) :=
  match l with
  | c1 :: 'e' :: 'a' :: 'd' :: ' ' :: c2 :: 'a' :: 'm' :: 'e' :: ':' :: rest =>
    if (c1 = 'L' ∨ c1 = 'l') ∧ (c2 = 'N' ∨ c2 = 'n') then some rest else none
  | _ => none

theorem stripLeadName_eq_variant (l : List Char) :
    stripLeadName l =
      (match leadNameVariantRest l with
       | some rest => rest.dropWhile jsIsSpace
       | none => l) := by
  unfold stripLeadName leadNameVariantRest
  split
  · split_ifs <;> rfl
  · rfl

/-- The first non-empty trimmed line, characterised from the raw split. -/
theorem head_linesOf_eq_find (ls : List (List Char)) :
    ((ls.map trim).filter (fun l => l ≠ [])).head? =
      (ls.find? (fun raw => trim raw ≠ [])).map trim := by
  induction ls with
  | nil => rfl
  | cons a t ih =>
    by_cases h : trim a = []
    · rw [List.map_cons, List.filter_cons_of_neg (by simpa using h),
        List.find?_cons_of_neg _ (by simpa using h), ih]
    · rw [List.map_cons, List.filter_cons_of_pos (by simpa using h),
        List.find?_cons_of_pos _ (by simpa using h)]
      rfl

/-- C7 counterexample: the line "LEAD NAME: Jane" case-insensitively
starts with "lead name:", but `deriveTitle` does not return the
remainder "Jane": the strip regex `/^[Ll]ead [Nn]ame:\s*/` only
tolerates case variation on the first letters, so the whole line comes
back unchanged. -/
theorem deriveTitle_uppercase_leadName_cex :
    isLeadNameLine ("LEAD NAME: Jane".toList) = true ∧
    deriveTitle ("LEAD NAME: Jane".toList) = "LEAD NAME: Jane".toList ∧
    deriveTitle ("LEAD NAME: Jane".toList) ≠ "Jane".toList := by decide

/-- C7 (amended): for a lead whose first case-insensitive
"lead name:" line is found, the remainder after the prefix (trimmed,
falling back to "Untitled lead" when empty) is returned only when the
line begins with one of the four literal variants `[Ll]ead [Nn]ame:`;
for any other casing the whole (trimmed) line is returned unchanged. -/
theorem deriveTitle_leadName_amended :
    ∀ lead nameLine : List Char,
      (linesOf lead).find? isLeadNameLine = some nameLine →
      (∀ rest, leadNameVariantRest nameLine = some rest →
        deriveTitle lead = (if trim rest = [] then untitledMsg else trim rest))
      ∧ (leadNameVariantRest nameLine = none → deriveTitle lead = nameLine) := by
  intro lead nameLine hf
  constructor
  · intro rest hv
    rw [deriveTitle_eq_found hf, stripLeadName_eq_variant, hv]
    simp only [trim_dropWhile]
  · intro hv
    rw [deriveTitle_eq_found hf, stripLeadName_eq_variant, hv]
    have hm := mem_linesOf_trimmed (List.mem_of_find?_eq_some hf)
    simp only [hm.1]
    rw [if_neg hm.2]

/-- C7 witness: the spec's own examples, reached through the amended
theorem. -/
theorem deriveTitle_leadName_amended_witness :
    deriveTitle ("Lead Name: Jane Doe\nEmail: x".toList) = "Jane Doe".toList ∧
    deriveTitle ("Lead Name:   \nSomething".toList) = untitledMsg := by
  constructor
  · have h := (deriveTitle_leadName_amended ("Lead Name: Jane Doe\nEmail: x".toList)
      ("Lead Name: Jane Doe".toList) (by decide)).1 (" Jane Doe".toList) (by decide)
    rw [h]; decide
  · have h := (deriveTitle_leadName_amended ("Lead Name:   \nSomething".toList)
      ("Lead Name:".toList) (by decide)).1 ([]) (by decide)
    rw [h]; decide

/-- C8: when no line case-insensitively starts with "lead name:",
`deriveTitle` returns the first line whose trimmed form is non-empty
(as trimmed by the documented split), and "Untitled lead" when there is
none; in particular `deriveTitle "" = "Untitled lead"`. -/
theorem deriveTitle_first_nonempty_line :
    (∀ lead : List Char, (linesOf lead).find? isLeadNameLine = none →
      deriveTitle lead =
        (match (splitLines lead).find? (fun raw => trim raw ≠ []) with
         | some raw => trim raw
         | none => untitledMsg))
    ∧ deriveTitle ("".toList) = untitledMsg := by
  constructor
  · intro lead hf
    have hh : (linesOf lead).head? =
        ((splitLines lead).find? (fun raw => trim raw ≠ [])).map trim :=
      head_linesOf_eq_find (splitLines lead)
    cases hfr : (splitLines lead).find? (fun raw => trim raw ≠ []) with
    | none =>
      rw [hfr] at hh
      simp only [Option.map_none'] at hh
      have hl : linesOf lead = [] := by
        cases hl' : linesOf lead with
        | nil => rfl
        | cons l t => rw [hl'] at hh; simp at hh
      rw [deriveTitle_eq_no_lines hf hl]
    | some raw =>
      rw [hfr] at hh
      simp only [Option.map_some'] at hh
      cases hl' : linesOf lead with
      | nil => rw [hl'] at hh; simp at hh
      | cons l t =>
        rw [hl'] at hh
        simp only [List.head?_cons, Option.some.injEq] at hh
        rw [deriveTitle_eq_first_line hf hl', hh]
  · decide

/-- C8 witness: a lead with no "lead name:" line and leading blank
space, settled through the theorem. -/
theorem deriveTitle_first_nonempty_line_witness :
    deriveTitle ("   \n  hello there \nworld".toList) = "hello there".toList := by
  have h := deriveTitle_first_nonempty_line.1 ("   \n  hello there \nworld".toList)
    (by decide)
  rw [h]; decide

/-- C10: `deriveTitle` always returns a non-empty string with no
leading or trailing whitespace: every return path yields a trimmed
line, a trimmed remainder, or the literal "Untitled lead". -/
theorem deriveTitle_trimmed_nonempty (lead : List Char) :
    deriveTitle lead ≠ [] ∧ trim (deriveTitle lead) = deriveTitle lead := by
  cases hf : (linesOf lead).find? isLeadNameLine with
  | some nameLine =>
    rw [deriveTitle_eq_found hf]
    by_cases hr : trim (stripLeadName nameLine) = []
    · rw [if_pos hr]; exact ⟨by decide, by decide⟩
    · rw [if_neg hr]; exact ⟨hr, trim_idem _⟩
  | none =>
    cases hl : linesOf lead with
    | nil => rw [deriveTitle_eq_no_lines hf hl]; exact ⟨by decide, by decide⟩
    | cons l t =>
      rw [deriveTitle_eq_first_line hf hl]
      have hm : l ∈ linesOf lead := by rw [hl]; exact List.mem_cons_self l t
      have := mem_linesOf_trimmed hm
      exact ⟨this.2, this.1⟩

/-! ## Claims about `splitSections` -/

/-- The four named buckets of the section map. -/
inductive Bucket where
  | overview
  | brief
  | proposal
  | miniSpec
deriving DecidableEq

/-- The spec's priority classification of a (lowercased) heading title:
contains "project overview", else "final project brief", else
"proposal", else "mini-spec" or "mini spec", else no bucket. -/
def route (title : List Char) : Option Bucket :=
  if jsIncludes title overviewNeedle then some Bucket.overview
  else if jsIncludes title briefNeedle then some Bucket.brief
  else if jsIncludes title proposalNeedle then some Bucket.proposal
  else if jsIncludes title miniSpecNeedle1 || jsIncludes title miniSpecNeedle2 then
    some Bucket.miniSpec
  else none

/-- Select a bucket's value out of a `Sections` record. -/
def bucketValue : Bucket → Sections → List Char
  | Bucket.overview, s => s.overview
  | Bucket.brief, s => s.brief
  | Bucket.proposal, s => s.proposal
  | Bucket.miniSpec, s => s.miniSpec

/-- The last part, in document order, that the classification routes to
bucket `b`. -/
def lastAssigned (b : Bucket) : List SpanPart → Option SpanPart
  | [] => none
  | p :: ps =>
    match lastAssigned b ps with
    | some q => some q
    | none => if route p.title = some b then some p else none

/-- The spec-side value of bucket `b`: the trimmed body of the last part
routed to it, or the empty string when no span routes there. -/
def lastRouted (md : List Char) (b : Bucket) : List Char :=
  match lastAssigned b (partsOf md) with
  | some p => bodyOf md p
  | none => []

theorem bucketValue_applyPart (md : List Char) (acc : Sections) (p : SpanPart)
    (b : Bucket) :
    bucketValue b (applyPart md acc p) =
      if route p.title = some b then bodyOf md p else bucketValue b acc := by
  unfold applyPart route
  cases h1 : jsIncludes p.title overviewNeedle <;>
  cases h2 : jsIncludes p.title briefNeedle <;>
  cases h3 : jsIncludes p.title proposalNeedle <;>
  cases h4 : jsIncludes p.title miniSpecNeedle1 <;>
  cases h5 : jsIncludes p.title miniSpecNeedle2 <;>
  cases b <;>
  simp [bucketValue, h1, h2, h3, h4, h5]

theorem bucketValue_foldl (md : List Char) (b : Bucket) :
    ∀ (ps : List SpanPart) (acc : Sections),
      bucketValue b (ps.foldl (applyPart md) acc) =
        (match lastAssigned b ps with
         | some p => bodyOf md p
         | none => bucketValue b acc) := by
  intro ps
  induction ps with
  | nil => intro acc; rfl
  | cons p ps ih =>
    intro acc
    rw [List.foldl_cons, ih]
    cases hl : lastAssigned b ps with
    | some q => simp [lastAssigned, hl]
    | none =>
      by_cases hr : route p.title = some b <;>
        simp [lastAssigned, hl, hr, bucketValue_applyPart]

theorem applyPart_all (md : List Char) (acc : Sections) (p : SpanPart) :
    (applyPart md acc p).all = acc.all := by
  simp only [applyPart]
  split_ifs <;> rfl

theorem foldl_applyPart_all (md : List Char) :
    ∀ (ps : List SpanPart) (acc : Sections),
      (ps.foldl (applyPart md) acc).all = acc.all := by
  intro ps
  induction ps with
  | nil => intro acc; rfl
  | cons p ps ih =>
    intro acc
    rw [List.foldl_cons, ih, applyPart_all]

theorem splitSections_eq_foldl (md : List Char) :
    splitSections md =
      (partsOf md).foldl (applyPart md) ⟨md, [], [], [], []⟩ := by
  unfold splitSections partsOf
  by_cases h0 : md = []
  · subst h0; rfl
  · rw [if_neg h0]
    by_cases hm : matchesOf md = []
    · rw [if_pos hm, hm]; rfl
    · rw [if_neg hm]

/-- C1: every bucket of the segmenter's output is the trimmed body of
the last span (in document order) whose lowercased title the priority
chain routes to that bucket, and the empty string when no span routes
there — so a span matching none of the four phrases lands in no bucket.
The concrete conjuncts exhibit the case-insensitive match, the
last-match-wins overwrite, and the discarding of an unmatched title. -/
theorem splitSections_bucket_assignment :
    (∀ (md : List Char) (b : Bucket),
      bucketValue b (splitSections md) = lastRouted md b)
    ∧ (splitSections ("## 1. PROJECT OVERVIEW\nHi".toList)).overview
        = "## 1. PROJECT OVERVIEW\nHi".toList
    ∧ (splitSections ("## 1. Proposal\nA\n## 2. Proposal\nB".toList)).proposal
        = "## 2. Proposal\nB".toList
    ∧ splitSections ("## 1. Irrelevant Heading\nX".toList)
        = ⟨"## 1. Irrelevant Heading\nX".toList, [], [], [], []⟩ := by
  refine ⟨?_, by decide, by decide, by decide⟩
  intro md b
  rw [splitSections_eq_foldl, bucketValue_foldl]
  unfold lastRouted
  cases lastAssigned b (partsOf md) with
  | some p => rfl
  | none => cases b <;> rfl

theorem partsFrom_getElem? (md : List Char) :
    ∀ (ms : List HeadMatch) (i : Nat),
      (partsFrom md ms)[i]? =
        (ms[i]?).map (fun m =>
          ⟨m.title.map jsToLower, m.index,
            match ms[i + 1]? with
            | some m2 => m2.index
            | none => md.length⟩) := by
  intro ms
  induction ms with
  | nil => intro i; rfl
  | cons m tail ih =>
    cases tail with
    | nil =>
      intro i
      match i with
      | 0 => rfl
      | j + 1 => cases j <;> rfl
    | cons m2 rest =>
      intro i
      match i with
      | 0 => simp [partsFrom]
      | j + 1 =>
        have h := ih j
        simp only [List.getElem?_cons_succ] at h
        simp only [partsFrom, List.getElem?_cons_succ]
        rw [h]

/-- The canonical four-heading document used by the spec's examples. -/
def canonicalDoc : List Char :=
  ("## 1. Project Overview\nAlpha\n## 2. Final Project Brief\nBeta\n"
    ++ "## 3. Proposal\nGamma\n## 4. Mini-Spec\nDelta").toList

/-- C2: the i-th span's trimmed body is the substring of the input from
the i-th match's own start offset to the next match's start offset (or
to end of document for the last match); and on the canonical
four-heading document each named bucket starts with its own heading line
and excludes the next heading's line. -/
theorem splitSections_span_offsets :
    (∀ (md : List Char) (i : Nat),
      ((partsOf md)[i]?).map (bodyOf md) =
        ((matchesOf md)[i]?).map (fun m =>
          trim (jsSlice md m.index
            (match (matchesOf md)[i + 1]? with
             | some m2 => m2.index
             | none => md.length))))
    ∧ ("## 1. Project Overview".toList).isPrefixOf
        (splitSections canonicalDoc).overview = true
    ∧ jsIncludes (splitSections canonicalDoc).overview
        ("## 2. Final Project Brief".toList) = false
    ∧ ("## 2. Final Project Brief".toList).isPrefixOf
        (splitSections canonicalDoc).brief = true
    ∧ jsIncludes (splitSections canonicalDoc).brief
        ("## 3. Proposal".toList) = false
    ∧ ("## 3. Proposal".toList).isPrefixOf
        (splitSections canonicalDoc).proposal = true
    ∧ jsIncludes (splitSections canonicalDoc).proposal
        ("## 4. Mini-Spec".toList) = false
    ∧ ("## 4. Mini-Spec".toList).isPrefixOf
        (splitSections canonicalDoc).miniSpec = true := by
  refine ⟨?_, by decide, by decide, by decide, by decide, by decide, by decide,
    by decide⟩
  intro md i
  simp only [partsOf]
  rw [partsFrom_getElem?]
  cases (matchesOf md)[i]? <;> rfl

/-- C3: the `all` key always equals the input verbatim, and whenever
zero headings are found (the empty string included), the four named
buckets are all empty. -/
theorem splitSections_all_verbatim_degenerate :
    (∀ md : List Char, (splitSections md).all = md)
    ∧ (∀ md : List Char, matchesOf md = [] →
        (splitSections md).overview = [] ∧ (splitSections md).brief = [] ∧
        (splitSections md).proposal = [] ∧ (splitSections md).miniSpec = []) := by
  constructor
  · intro md
    rw [splitSections_eq_foldl, foldl_applyPart_all]
  · intro md hm
    unfold splitSections
    rw [hm]
    by_cases h0 : md = [] <;> simp [h0]

/-- C3 witness: a heading-free document and the empty string. -/
theorem splitSections_all_verbatim_degenerate_witness :
    (splitSections ("no headings here".toList)).all = "no headings here".toList ∧
    (splitSections ("no headings here".toList)).overview = [] ∧
    (splitSections ("".toList)).proposal = [] :=
  ⟨splitSections_all_verbatim_degenerate.1 ("no headings here".toList),
   (splitSections_all_verbatim_degenerate.2 ("no headings here".toList) (by decide)).1,
   (splitSections_all_verbatim_degenerate.2 ("".toList) (by decide)).2.2.1⟩

/-! ## Claims about history recording -/

theorem record_eq_cons (item : HistoryItem) (prev : List HistoryItem) :
    record item prev = item :: prev.take 14 := by
  show (item :: prev).take 15 = _
  rw [show (15 : Nat) = 14 + 1 from rfl, List.take_succ_cons]

theorem take_append_take (l x : List HistoryItem) :
    (l ++ x.take 15).take 15 = (l ++ x).take 15 := by
  rw [List.take_append_eq_append_take, List.take_append_eq_append_take,
    List.take_take]
  congr 2
  omega

theorem recordAll_bounded :
    ∀ (items h : List HistoryItem), h.length ≤ 15 →
      recordAll items h = (items.reverse ++ h).take 15 := by
  intro items
  induction items with
  | nil =>
    intro h hl
    simp only [recordAll, List.foldl_nil, List.reverse_nil, List.nil_append]
    rw [List.take_of_length_le hl]
  | cons it items ih =>
    intro h hl
    show recordAll items (record it h) = _
    have hlen : (record it h).length ≤ 15 := by
      rw [record_eq_cons]
      simp only [List.length_cons, List.length_take]
      omega
    rw [ih (record it h) hlen]
    show (items.reverse ++ (it :: h).take 15).take 15 = _
    rw [take_append_take, List.reverse_cons, List.append_assoc,
      List.singleton_append]

/-- C4: `record` prepends the new item and truncates to at most 15
elements dropping from the tail; a run of successive generations from an
empty history keeps the most recent 15, newest first, and after 16
generations exactly 15 items remain with the newest at the head and the
oldest evicted. -/
theorem record_prepend_truncate :
    (∀ (item : HistoryItem) (prev : List HistoryItem),
      (record item prev).head? = some item ∧
      (record item prev).tail = prev.take 14 ∧
      (record item prev).length = min 15 (prev.length + 1))
    ∧ (∀ items : List HistoryItem, recordAll items [] = items.reverse.take 15)
    ∧ (∀ items : List HistoryItem, items.length = 16 →
        (recordAll items []).length = 15 ∧
        (recordAll items []).head? = items.getLast?) := by
  refine ⟨?_, ?_, ?_⟩
  · intro item prev
    rw [record_eq_cons]
    refine ⟨rfl, rfl, ?_⟩
    simp [List.length_take]
    omega
  · intro items
    rw [recordAll_bounded items [] (by simp), List.append_nil]
  · intro items hl
    rw [recordAll_bounded items [] (by simp), List.append_nil]
    constructor
    · rw [List.length_take, List.length_reverse, hl]
      omega
    · have hne : items.reverse.length = 16 := by
        rw [List.length_reverse, hl]
      cases hr : items.reverse with
      | nil => rw [hr] at hne; simp at hne
      | cons a t =>
        rw [show (15 : Nat) = 14 + 1 from rfl, List.take_succ_cons]
        have : items.getLast? = (a :: t).head? := by
          rw [← hr, List.head?_reverse]
        rw [this]
        rfl

def dummyItem (n : Nat) : HistoryItem :=
  ⟨[Char.ofNat (65 + n)], [], [], [], [], [], []⟩

def sixteenItems : List HistoryItem := (List.range 16).map dummyItem

/-- C4 witness: sixteen successive generations from an empty history. -/
theorem record_prepend_truncate_witness :
    (recordAll sixteenItems []).length = 15 ∧
    (recordAll sixteenItems []).head? = sixteenItems.getLast? ∧
    (record (dummyItem 0) []).head? = some (dummyItem 0) :=
  ⟨(record_prepend_truncate.2.2 sixteenItems (by decide)).1,
   (record_prepend_truncate.2.2 sixteenItems (by decide)).2,
   (record_prepend_truncate.1 (dummyItem 0) []).1⟩

/-! ## Claims about `handleGenerate` -/

theorem jsOr_ne_nil (o : Option (List Char)) (d : List Char) (hd : d ≠ []) :
    jsOr o d ≠ [] := by
  unfold jsOr
  cases o with
  | none => exact hd
  | some s => by_cases hs : s = [] <;> simp [hs, hd]

/-- C5: with a non-empty trimmed lead, a successful generation prepends
exactly one new item (the history head is the new item, the tail is the
previous history truncated to 14) and surfaces no error; a non-2xx
response or a thrown exception leaves history unchanged, clears the
output, and sets the error text to the decoded or fallback message
(always non-empty in the non-2xx case). -/
theorem handleGenerate_history_effects :
    ∀ (st : AppState) (newId now : List Char), trim st.leadText ≠ [] →
      (∀ pf,
        (handleGenerate st (FetchOutcome.success pf) newId now).history.head? =
          some ⟨newId, now, deriveTitle st.leadText, st.leadText,
            jsOr pf noFolderMsg, st.model, st.tone⟩ ∧
        (handleGenerate st (FetchOutcome.success pf) newId now).history.tail =
          st.history.take 14 ∧
        (handleGenerate st (FetchOutcome.success pf) newId now).history.length =
          min 15 (st.history.length + 1) ∧
        (handleGenerate st (FetchOutcome.success pf) newId now).errorText = [])
      ∧ (∀ ef,
        (handleGenerate st (FetchOutcome.httpError ef) newId now).history = st.history ∧
        (handleGenerate st (FetchOutcome.httpError ef) newId now).outputText = [] ∧
        (handleGenerate st (FetchOutcome.httpError ef) newId now).errorText =
          jsOr ef failedMsg ∧
        (handleGenerate st (FetchOutcome.httpError ef) newId now).errorText ≠ [])
      ∧ (∀ em,
        (handleGenerate st (FetchOutcome.thrown em) newId now).history = st.history ∧
        (handleGenerate st (FetchOutcome.thrown em) newId now).outputText = [] ∧
        (handleGenerate st (FetchOutcome.thrown em) newId now).errorText =
          em.getD genericMsg) := by
  intro st newId now hne
  refine ⟨?_, ?_, ?_⟩
  · intro pf
    refine ⟨?_, ?_, ?_, ?_⟩ <;>
      · simp [handleGenerate, hne, record_eq_cons, List.length_take]
        try omega
  · intro ef
    refine ⟨?_, ?_, ?_, ?_⟩ <;>
      simp [handleGenerate, hne]
    exact jsOr_ne_nil ef failedMsg (by decide)
  · intro em
    refine ⟨?_, ?_, ?_⟩ <;> simp [handleGenerate, hne]

/-- A concrete pre-generation state with a non-empty lead. -/
def st0 : AppState :=
  ⟨"Lead Name: Claire Meyer\nBudget: 5000".toList, [], [], [],
    SectionKey.all, "gpt-4.1-mini".toList, "premium".toList, [], none, false⟩

/-- C5 witness: one success and one failure against `st0`. -/
theorem handleGenerate_history_effects_witness :
    (handleGenerate st0 (FetchOutcome.success (some ("doc".toList)))
      ("id1".toList) ("t1".toList)).history.head? =
      some ⟨"id1".toList, "t1".toList, deriveTitle st0.leadText, st0.leadText,
        jsOr (some ("doc".toList)) noFolderMsg, st0.model, st0.tone⟩ ∧
    (handleGenerate st0 (FetchOutcome.httpError none)
      ("id1".toList) ("t1".toList)).history = st0.history ∧
    (handleGenerate st0 (FetchOutcome.thrown none)
      ("id1".toList) ("t1".toList)).outputText = [] := by
  have h := handleGenerate_history_effects st0 ("id1".toList) ("t1".toList) (by decide)
  exact ⟨(h.1 (some ("doc".toList))).1, (h.2.1 none).1, (h.2.2 none).2.1⟩

/-- C6: with an empty trimmed lead, `handleGenerate` only clears the
output and sets the validation message — history, tabs, settings and
loading flag are untouched — and the result does not depend on the fetch
outcome or the generated id/timestamp, so no network call is observed. -/
theorem handleGenerate_empty_lead :
    ∀ (st : AppState) (o1 o2 : FetchOutcome) (id1 id2 n1 n2 : List Char),
      trim st.leadText = [] →
      handleGenerate st o1 id1 n1 =
        { st with outputText := [], errorText := validationMsg } ∧
      handleGenerate st o1 id1 n1 = handleGenerate st o2 id2 n2 := by
  intro st o1 o2 id1 id2 n1 n2 h
  exact ⟨by simp [handleGenerate, h], by simp [handleGenerate, h]⟩

/-- A state whose lead text is whitespace only. -/
def stBlank : AppState :=
  ⟨"   ".toList, "old output".toList, [], [], SectionKey.all, [], [],
    [dummyItem 3], none, false⟩

/-- C6 witness: a whitespace-only lead under two different outcomes. -/
theorem handleGenerate_empty_lead_witness :
    handleGenerate stBlank (FetchOutcome.success (some ("x".toList)))
        ("i".toList) ("n".toList) =
      { stBlank with outputText := [], errorText := validationMsg } ∧
    handleGenerate stBlank (FetchOutcome.success (some ("x".toList)))
        ("i".toList) ("n".toList) =
      handleGenerate stBlank (FetchOutcome.thrown none) ("j".toList) ("m".toList) := by
  have h := handleGenerate_empty_lead stBlank
    (FetchOutcome.success (some ("x".toList))) (FetchOutcome.thrown none)
    ("i".toList) ("j".toList) ("n".toList) ("m".toList) (by decide)
  exact ⟨h.1, h.2⟩

/-- C9: a 2xx response with no `projectFolder` field is treated as a
success carrying the literal "No project folder returned.": that text
becomes the output, no error is surfaced, and a history item holding the
fallback text is recorded and marked active. -/
theorem handleGenerate_missing_folder :
    ∀ (st : AppState) (newId now : List Char), trim st.leadText ≠ [] →
      (handleGenerate st (FetchOutcome.success none) newId now).outputText =
        noFolderMsg ∧
      (handleGenerate st (FetchOutcome.success none) newId now).errorText = [] ∧
      (handleGenerate st (FetchOutcome.success none) newId now).history.head? =
        some ⟨newId, now, deriveTitle st.leadText, st.leadText, noFolderMsg,
          st.model, st.tone⟩ ∧
      (handleGenerate st (FetchOutcome.success none) newId now).activeHistoryId =
        some newId := by
  intro st newId now hne
  refine ⟨?_, ?_, ?_, ?_⟩ <;> simp [handleGenerate, hne, record_eq_cons, jsOr]

/-- C9 witness: `st0` with a body that lacks the field. -/
theorem handleGenerate_missing_folder_witness :
    (handleGenerate st0 (FetchOutcome.success none) ("id2".toList)
      ("t2".toList)).outputText = noFolderMsg ∧
    (handleGenerate st0 (FetchOutcome.success none) ("id2".toList)
      ("t2".toList)).errorText = [] := by
  have h := handleGenerate_missing_folder st0 ("id2".toList) ("t2".toList) (by decide)
  exact ⟨h.1, h.2.1⟩
